import Mathlib

/-!
Shallow embedding of the scoring and aggregation core of the
work–reward–fine tracker (src/work_reward_fine_tracker_web_app_interactive.jsx).

Numeric values flowing through the core are JavaScript numbers.  The
embedding models the finite values as exact rationals and keeps NaN and
the two infinities explicit, because the scoring expression
`Math.min(actual / target, 1) || 0` produces NaN (0/0) and Infinity
(positive/0) before normalising, and the behaviour at those points is
exactly what several specification sentences are about.
-/

/-- JavaScript number values relevant to the core: finite numbers as
rationals, NaN, and the two signed infinities. -/
inductive JSNum where
  | num : ℚ → JSNum
  | nan : JSNum
  | inf : JSNum
  | ninf : JSNum
deriving DecidableEq

namespace JSNum

/-- Division of two finite JavaScript numbers (the expression
`actual / target`): division by zero yields NaN for 0/0 and a signed
infinity otherwise; any other division is exact. -/
def jsDiv (a b : ℚ) : JSNum :=
  if b = 0 then
    if a = 0 then nan else if 0 < a then inf else ninf
  else num (a / b)

/-- Math.min of a JavaScript number and the finite constant q:
NaN propagates, min(Infinity, q) = q, min(-Infinity, q) = -Infinity. -/
def jsMin (x : JSNum) (q : ℚ) : JSNum :=
  match x with
  | num a => num (min a q)
  | nan => nan
  | inf => num q
  | ninf => ninf

/-- The expression `x || 0`: a falsy first operand (NaN, 0, -0) gives 0,
every other number is returned unchanged (note that 0 is already 0). -/
def orZero (x : JSNum) : JSNum :=
  match x with
  | nan => num 0
  | x => x

/-- JavaScript addition. -/
def jsAdd : JSNum → JSNum → JSNum
  | nan, _ => nan
  | _, nan => nan
  | inf, ninf => nan
  | ninf, inf => nan
  | inf, _ => inf
  | _, inf => inf
  | ninf, _ => ninf
  | _, ninf => ninf
  | num a, num b => num (a + b)

/-- Division by the constant 4 (the expression `(...) / 4`). -/
def div4 : JSNum → JSNum
  | num a => num (a / 4)
  | nan => nan
  | inf => inf
  | ninf => ninf

/-- Multiplication by the constant 100 (the expression `(...) * 100`). -/
def mul100 : JSNum → JSNum
  | num a => num (a * 100)
  | nan => nan
  | inf => inf
  | ninf => ninf

/-- Math.round: a finite number is rounded half toward positive
infinity; NaN and the infinities are returned unchanged. -/
def jsRound : JSNum → JSNum
  | num a => num (round a)
  | nan => nan
  | inf => inf
  | ninf => ninf

/-- Strict equality `===` of a JavaScript number with a finite numeric
literal: always false for NaN and the infinities. -/
def jsEqNum (x : JSNum) (q : ℚ) : Bool :=
  match x with
  | num a => decide (a = q)
  | _ => false

end JSNum

/-- A raw day record (source interface `Entry`).  The numeric fields are
finite JavaScript numbers, modelled as rationals; `note` is optional. -/
structure Entry where
  date : String
  dsaQs : ℚ
  dsaMin : ℚ
  aptQs : ℚ
  aptMin : ℚ
  webMin : ℚ
  engMin : ℚ
  note : Option String := none
deriving DecidableEq

/-- The target configuration (source interface `Settings`). -/
structure Settings where
  dsaQTarget : ℚ
  aptQTarget : ℚ
  webMinTarget : ℚ
  engMinTarget : ℚ
  fineAmount : ℚ
  rewardText : String
deriving DecidableEq

/-- The hard-coded default configuration (source `defaultSettings`). -/
def defaultSettings : Settings :=
  { dsaQTarget := 3
    aptQTarget := 20
    webMinTarget := 90
    engMinTarget := 30
    fineAmount := 50
    rewardText := "30 min entertainment" }

/-- Outcome classification of a day. -/
inductive Outcome where
  | Reward : Outcome
  | Missed : Outcome
  | Fine : Outcome
deriving DecidableEq

/-- The result record of `computeScores`. -/
structure Scores where
  dsaScore : JSNum
  aptScore : JSNum
  webScore : JSNum
  engScore : JSNum
  completion : JSNum
  outcome : Outcome
  fine : ℚ
  autoNote : String
deriving DecidableEq

/-- One dimension of the score computation: the source expression
`Math.min(actual / target, 1) || 0`. -/
def dimScore (actual target : ℚ) : JSNum :=
  JSNum.orZero (JSNum.jsMin (JSNum.jsDiv actual target) 1)

/-- The scoring function (source `computeScores`):
four clamped ratio scores, `completion = Math.round(((sum)/4)*100)`,
outcome by exact comparison of completion with 100 and 0, the fine
amount for Fine days, and the auto-generated note. -/
def computeScores (e : Entry) (s : Settings) : Scores :=
  let dsaScore := dimScore e.dsaQs s.dsaQTarget
  let aptScore := dimScore e.aptQs s.aptQTarget
  let webScore := dimScore e.webMin s.webMinTarget
  let engScore := dimScore e.engMin s.engMinTarget
  let completion := JSNum.jsRound (JSNum.mul100 (JSNum.div4
    (JSNum.jsAdd (JSNum.jsAdd (JSNum.jsAdd dsaScore aptScore) webScore) engScore)))
  let outcome : Outcome :=
    if JSNum.jsEqNum completion 100 then .Reward
    else if JSNum.jsEqNum completion 0 then .Missed
    else .Fine
  let fine : ℚ := if outcome = .Fine then s.fineAmount else 0
  let autoNote : String :=
    match outcome with
    | .Reward => s.rewardText
    | .Missed => "Fine ₹" ++ toString s.fineAmount ++ " + plan next day"
    | .Fine => "Fine ₹" ++ toString s.fineAmount
  { dsaScore := dsaScore
    aptScore := aptScore
    webScore := webScore
    engScore := engScore
    completion := completion
    outcome := outcome
    fine := fine
    autoNote := autoNote }

/-- A graded record: the raw entry together with its computed scores
(the spread `{ ...e, ...computeScores(e, settings) }`). -/
structure Graded where
  entry : Entry
  scores : Scores
deriving DecidableEq

/-- Stable ascending sort by date (the source
`entries.slice().sort((a, b) => a.date.localeCompare(b.date))`;
for ISO dates the comparator is lexicographic string order). -/
def sortByDate (l : List Entry) : List Entry :=
  l.mergeSort (fun a b => decide (a.date ≤ b.date))

/-- The derived graded history (source `enriched`): the entries, sorted
by date on a copy, each graded against the settings. -/
def enriched (entries : List Entry) (s : Settings) : List Graded :=
  (sortByDate entries).map (fun e => { entry := e, scores := computeScores e s })

/-- Accumulator of the source `reduce` in `totals`. -/
structure TotalsAcc where
  dsa : ℚ
  apt : ℚ
  web : ℚ
  eng : ℚ
  rewards : ℕ
  fines : ℕ
  missed : ℕ
  fineAmount : ℚ
deriving DecidableEq

/-- One step of the source `reduce` in `totals`. -/
def totalsStep (acc : TotalsAcc) (g : Graded) : TotalsAcc :=
  { dsa := acc.dsa + g.entry.dsaQs
    apt := acc.apt + g.entry.aptQs
    web := acc.web + g.entry.webMin
    eng := acc.eng + g.entry.engMin
    rewards := acc.rewards + (if g.scores.outcome = .Reward then 1 else 0)
    fines := acc.fines + (if g.scores.outcome = .Fine then 1 else 0)
    missed := acc.missed + (if g.scores.outcome = .Missed then 1 else 0)
    fineAmount := acc.fineAmount + g.scores.fine }

/-- Number of graded records whose completion is exactly 100
(the source `enriched.filter((e) => e.completion === 100).length`). -/
def count100 (l : List Graded) : ℕ :=
  (l.filter (fun g => JSNum.jsEqNum g.scores.completion 100)).length

/-- Consistency percentage (source `totals.consistency`): 0 for an empty
history, otherwise `Math.round((count100 / length) * 100)`. -/
def consistency (l : List Graded) : ℤ :=
  if l.length = 0 then 0
  else round (((count100 l : ℚ) / (l.length : ℚ)) * 100)

/-- The source `totals` memo: running sums, outcome counts, total fine
amount, and the consistency percentage. -/
structure Totals where
  dsa : ℚ
  apt : ℚ
  web : ℚ
  eng : ℚ
  rewards : ℕ
  fines : ℕ
  missed : ℕ
  fineAmount : ℚ
  consistency : ℤ
deriving DecidableEq

/-- The source `totals` computation over the graded history. -/
def totals (l : List Graded) : Totals :=
  let t := l.foldl totalsStep
    { dsa := 0, apt := 0, web := 0, eng := 0,
      rewards := 0, fines := 0, missed := 0, fineAmount := 0 }
  { dsa := t.dsa, apt := t.apt, web := t.web, eng := t.eng,
    rewards := t.rewards, fines := t.fines, missed := t.missed,
    fineAmount := t.fineAmount, consistency := consistency l }

/-- Test used by the streak loop and the consistency filter:
`e.completion === 100`. -/
def is100 (g : Graded) : Bool :=
  JSNum.jsEqNum g.scores.completion 100

/-- One iteration of the source streak loop: on a completion-100 day the
current counter increments and the best is updated, otherwise the
current counter resets to 0. -/
def streaksStep (p : ℕ × ℕ) (g : Graded) : ℕ × ℕ :=
  if is100 g then (p.1 + 1, max p.2 (p.1 + 1)) else (0, p.2)

/-- Result of the source `streaks` memo. -/
structure Streaks where
  current : ℕ
  best : ℕ
deriving DecidableEq

/-- The source `streaks` computation: a left-to-right traversal of the
graded history with a running current counter and running maximum. -/
def streaks (l : List Graded) : Streaks :=
  let p := l.foldl streaksStep (0, 0)
  { current := p.1, best := p.2 }

/-- Chart series of (date with the year stripped, completion) points
(source `completionSeries`). -/
def completionSeries (l : List Graded) : List (String × JSNum) :=
  l.map (fun g => (g.entry.date.drop 5, g.scores.completion))

/-- Chart series of total minutes per dimension (source `timeSplit`). -/
def timeSplit (l : List Graded) : List (String × ℚ) :=
  [("DSA Minutes", l.foldl (fun a g => a + g.entry.dsaMin) 0),
   ("Aptitude Minutes", l.foldl (fun a g => a + g.entry.aptMin) 0),
   ("Web Dev Minutes", l.foldl (fun a g => a + g.entry.webMin) 0),
   ("English Minutes", l.foldl (fun a g => a + g.entry.engMin) 0)]

/-- Chart series of outcome counts (source `rfSeries`). -/
def rfSeries (t : Totals) : List (String × ℕ) :=
  [("Reward", t.rewards), ("Fine", t.fines), ("Missed", t.missed)]

/-- The full derived summary over a history of raw entries: the graded
records and every aggregate the dashboard derives from them. -/
structure Summary where
  graded : List Graded
  totals : Totals
  streaks : Streaks
  completionSeries : List (String × JSNum)
  timeSplit : List (String × ℚ)
  rfSeries : List (String × ℕ)
deriving DecidableEq

/-- The aggregation pipeline: sort a copy of the entries, grade each
one, and compute every derived aggregate. -/
def summarize (entries : List Entry) (s : Settings) : Summary :=
  let enr := enriched entries s
  let t := totals enr
  { graded := enr
    totals := t
    streaks := streaks enr
    completionSeries := completionSeries enr
    timeSplit := timeSplit enr
    rfSeries := rfSeries t }

/-- The source `addOrUpdateEntry`: replace the first entry whose date
equals the form's date, or append the form when no entry matches. -/
def addOrUpdateEntry (form : Entry) (curr : List Entry) : List Entry :=
  match curr.findIdx? (fun e => e.date == form.date) with
  | some idx => curr.set idx form
  | none => curr ++ [form]

/-- The source `deleteEntry`: keep exactly the entries whose date
differs from the given date. -/
def deleteEntry (date : String) (curr : List Entry) : List Entry :=
  curr.filter (fun e => e.date != date)

/-- Structural reformulation of `addOrUpdateEntry` used in proofs:
replace the first match, append at the end otherwise. -/
def upsert (form : Entry) : List Entry → List Entry
  | [] => [form]
  | e :: rest => if e.date = form.date then form :: rest else e :: upsert form rest

/-! Helper lemmas about the scoring function. -/

theorem orZero_num (a : ℚ) : JSNum.orZero (JSNum.num a) = JSNum.num a := rfl

theorem jsEqNum_true_iff (x : JSNum) (q : ℚ) :
    JSNum.jsEqNum x q = true ↔ x = JSNum.num q := by
  cases x <;> simp [JSNum.jsEqNum]

theorem jsEqNum_eq_decide (x : JSNum) (q : ℚ) :
    JSNum.jsEqNum x q = decide (x = JSNum.num q) := by
  cases x <;> simp [JSNum.jsEqNum]

theorem computeScores_dsaScore (e : Entry) (s : Settings) :
    (computeScores e s).dsaScore = dimScore e.dsaQs s.dsaQTarget := rfl

theorem computeScores_aptScore (e : Entry) (s : Settings) :
    (computeScores e s).aptScore = dimScore e.aptQs s.aptQTarget := rfl

theorem computeScores_webScore (e : Entry) (s : Settings) :
    (computeScores e s).webScore = dimScore e.webMin s.webMinTarget := rfl

theorem computeScores_engScore (e : Entry) (s : Settings) :
    (computeScores e s).engScore = dimScore e.engMin s.engMinTarget := rfl

theorem computeScores_completion (e : Entry) (s : Settings) :
    (computeScores e s).completion =
      JSNum.jsRound (JSNum.mul100 (JSNum.div4
        (JSNum.jsAdd (JSNum.jsAdd (JSNum.jsAdd
          (dimScore e.dsaQs s.dsaQTarget) (dimScore e.aptQs s.aptQTarget))
          (dimScore e.webMin s.webMinTarget)) (dimScore e.engMin s.engMinTarget)))) := rfl

theorem computeScores_outcome (e : Entry) (s : Settings) :
    (computeScores e s).outcome =
      if JSNum.jsEqNum (computeScores e s).completion 100 then Outcome.Reward
      else if JSNum.jsEqNum (computeScores e s).completion 0 then Outcome.Missed
      else Outcome.Fine := rfl

theorem computeScores_fine (e : Entry) (s : Settings) :
    (computeScores e s).fine =
      if (computeScores e s).outcome = Outcome.Fine then s.fineAmount else 0 := rfl

theorem dimScore_target_zero (m : ℚ) :
    dimScore m 0 = if m = 0 then JSNum.num 0
      else if 0 < m then JSNum.num 1 else JSNum.ninf := by
  by_cases hm : m = 0
  · simp [dimScore, JSNum.jsDiv, JSNum.jsMin, JSNum.orZero, hm]
  · by_cases hp : 0 < m <;>
      simp [dimScore, JSNum.jsDiv, JSNum.jsMin, JSNum.orZero, hm, hp]

theorem dimScore_target_ne_zero (m t : ℚ) (ht : t ≠ 0) :
    dimScore m t = JSNum.num (min (m / t) 1) := by
  simp [dimScore, JSNum.jsDiv, JSNum.jsMin, JSNum.orZero, ht]

theorem dimScore_met (m t : ℚ) (ht : 0 < t) (hm : t ≤ m) :
    dimScore m t = JSNum.num 1 := by
  rw [dimScore_target_ne_zero m t (ne_of_gt ht)]
  have h1 : (1 : ℚ) ≤ m / t := (one_le_div ht).mpr hm
  rw [min_eq_right h1]

theorem dimScore_zero_actual (t : ℚ) : dimScore 0 t = JSNum.num 0 := by
  by_cases ht : t = 0
  · rw [ht, dimScore_target_zero]; simp
  · rw [dimScore_target_ne_zero 0 t ht, zero_div]
    norm_num

theorem dimScore_nonneg_bounds (m t : ℚ) (hm : 0 ≤ m) (ht : 0 ≤ t) :
    ∃ q : ℚ, dimScore m t = JSNum.num q ∧ 0 ≤ q ∧ q ≤ 1 := by
  rcases eq_or_lt_of_le ht with ht0 | htp
  · rw [← ht0, dimScore_target_zero]
    rcases eq_or_lt_of_le hm with hm0 | hmp
    · exact ⟨0, by simp [← hm0], le_refl 0, by norm_num⟩
    · exact ⟨1, by simp [ne_of_gt hmp, hmp], by norm_num, le_refl 1⟩
  · refine ⟨min (m / t) 1, dimScore_target_ne_zero m t (ne_of_gt htp), ?_, min_le_right _ _⟩
    exact le_min (div_nonneg hm (le_of_lt htp)) (by norm_num)

theorem completion_of_num (a b c d : ℚ) :
    JSNum.jsRound (JSNum.mul100 (JSNum.div4
      (JSNum.jsAdd (JSNum.jsAdd (JSNum.jsAdd (JSNum.num a) (JSNum.num b))
        (JSNum.num c)) (JSNum.num d)))) =
    JSNum.num ((round (((a + b + c + d) / 4) * 100) : ℤ) : ℚ) := rfl

/-! Concrete records and configurations used by witnesses and
counterexamples. -/

/-- A day with every measurement zero. -/
def eZero : Entry :=
  { date := "2025-01-01", dsaQs := 0, dsaMin := 0, aptQs := 0, aptMin := 0,
    webMin := 0, engMin := 0 }

/-- A day with one DSA question and nothing else. -/
def ePos1 : Entry :=
  { date := "2025-01-02", dsaQs := 1, dsaMin := 0, aptQs := 0, aptMin := 0,
    webMin := 0, engMin := 0 }

/-- A day that meets every default target exactly. -/
def eFull : Entry :=
  { date := "2025-01-03", dsaQs := 3, dsaMin := 60, aptQs := 20, aptMin := 30,
    webMin := 90, engMin := 30 }

/-- A day that meets only the DSA target. -/
def ePartial : Entry :=
  { date := "2025-01-04", dsaQs := 3, dsaMin := 0, aptQs := 0, aptMin := 0,
    webMin := 0, engMin := 0 }

/-- A day with a negative DSA measurement. -/
def eNeg : Entry :=
  { date := "2025-01-05", dsaQs := -3, dsaMin := 0, aptQs := 0, aptMin := 0,
    webMin := 0, engMin := 0 }

/-- A configuration whose DSA target is zero. -/
def sDsaZero : Settings :=
  { dsaQTarget := 0, aptQTarget := 20, webMinTarget := 90, engMinTarget := 30,
    fineAmount := 50, rewardText := "movie" }

/-- A configuration with every target zero. -/
def sZeroTargets : Settings :=
  { dsaQTarget := 0, aptQTarget := 0, webMinTarget := 0, engMinTarget := 0,
    fineAmount := 50, rewardText := "movie" }

/-- C1 counterexample: with a zero DSA target and a strictly positive DSA
measurement the computed DSA score is 1, not 0 as the claim states
(1/0 is Infinity, Math.min clamps it to 1, and 1 is truthy). -/
theorem computeScores_zero_target_cex :
    sDsaZero.dsaQTarget = 0 ∧ 0 < ePos1.dsaQs ∧
    (computeScores ePos1 sDsaZero).dsaScore = JSNum.num 1 ∧
    (computeScores ePos1 sDsaZero).dsaScore ≠ JSNum.num 0 := by decide

/-- C1 amended: when a dimension's target is zero and its measurement is
nonnegative, the score is 0 for a zero measurement (0/0 is NaN, which
the `|| 0` normalises to 0) and 1 for a strictly positive measurement
(the division yields Infinity, which Math.min clamps to 1); it is never
NaN or Infinity. -/
theorem computeScores_zero_target_score (e : Entry) (s : Settings) :
    (s.dsaQTarget = 0 →
      (e.dsaQs = 0 → (computeScores e s).dsaScore = JSNum.num 0) ∧
      (0 < e.dsaQs → (computeScores e s).dsaScore = JSNum.num 1)) ∧
    (s.aptQTarget = 0 →
      (e.aptQs = 0 → (computeScores e s).aptScore = JSNum.num 0) ∧
      (0 < e.aptQs → (computeScores e s).aptScore = JSNum.num 1)) ∧
    (s.webMinTarget = 0 →
      (e.webMin = 0 → (computeScores e s).webScore = JSNum.num 0) ∧
      (0 < e.webMin → (computeScores e s).webScore = JSNum.num 1)) ∧
    (s.engMinTarget = 0 →
      (e.engMin = 0 → (computeScores e s).engScore = JSNum.num 0) ∧
      (0 < e.engMin → (computeScores e s).engScore = JSNum.num 1)) := by
  refine ⟨fun ht => ⟨fun hm => ?_, fun hm => ?_⟩, fun ht => ⟨fun hm => ?_, fun hm => ?_⟩,
    fun ht => ⟨fun hm => ?_, fun hm => ?_⟩, fun ht => ⟨fun hm => ?_, fun hm => ?_⟩⟩
  · rw [computeScores_dsaScore, ht, dimScore_target_zero]; simp [hm]
  · rw [computeScores_dsaScore, ht, dimScore_target_zero]; simp [ne_of_gt hm, hm]
  · rw [computeScores_aptScore, ht, dimScore_target_zero]; simp [hm]
  · rw [computeScores_aptScore, ht, dimScore_target_zero]; simp [ne_of_gt hm, hm]
  · rw [computeScores_webScore, ht, dimScore_target_zero]; simp [hm]
  · rw [computeScores_webScore, ht, dimScore_target_zero]; simp [ne_of_gt hm, hm]
  · rw [computeScores_engScore, ht, dimScore_target_zero]; simp [hm]
  · rw [computeScores_engScore, ht, dimScore_target_zero]; simp [ne_of_gt hm, hm]

/-- C1 amended witness: the zero-target zero-measurement case evaluated
at a concrete record and configuration. -/
theorem computeScores_zero_target_score_witness :
    sDsaZero.dsaQTarget = 0 ∧ eZero.dsaQs = 0 ∧
    (computeScores eZero sDsaZero).dsaScore = JSNum.num 0 :=
  ⟨by decide, by decide,
    ((computeScores_zero_target_score eZero sDsaZero).1 (by decide)).1 (by decide)⟩

/-- C2 counterexample: with every target zero, a record whose
measurements all equal (hence meet) their targets grades to completion
0 and outcome Missed, not Reward. -/
theorem computeScores_targets_met_cex :
    sZeroTargets.dsaQTarget ≤ eZero.dsaQs ∧ sZeroTargets.aptQTarget ≤ eZero.aptQs ∧
    sZeroTargets.webMinTarget ≤ eZero.webMin ∧ sZeroTargets.engMinTarget ≤ eZero.engMin ∧
    (computeScores eZero sZeroTargets).completion = JSNum.num 0 ∧
    (computeScores eZero sZeroTargets).outcome = Outcome.Missed ∧
    (computeScores eZero sZeroTargets).outcome ≠ Outcome.Reward := by
  have hc : (computeScores eZero sZeroTargets).completion = JSNum.num 0 := by
    rw [computeScores_completion]
    norm_num [eZero, sZeroTargets, dimScore_zero_actual, completion_of_num]
  have ho : (computeScores eZero sZeroTargets).outcome = Outcome.Missed := by
    rw [computeScores_outcome, hc]
    simp [JSNum.jsEqNum]
  exact ⟨by decide, by decide, by decide, by decide, hc, ho, by rw [ho]; simp⟩

/-- C2 amended: when every target is strictly positive, a record whose
four measurements each meet or exceed their targets grades to completion
100 and outcome Reward, however far the targets are exceeded. -/
theorem computeScores_targets_met_reward (e : Entry) (s : Settings)
    (ht1 : 0 < s.dsaQTarget) (ht2 : 0 < s.aptQTarget)
    (ht3 : 0 < s.webMinTarget) (ht4 : 0 < s.engMinTarget)
    (hm1 : s.dsaQTarget ≤ e.dsaQs) (hm2 : s.aptQTarget ≤ e.aptQs)
    (hm3 : s.webMinTarget ≤ e.webMin) (hm4 : s.engMinTarget ≤ e.engMin) :
    (computeScores e s).completion = JSNum.num 100 ∧
    (computeScores e s).outcome = Outcome.Reward := by
  have hc : (computeScores e s).completion = JSNum.num 100 := by
    rw [computeScores_completion, dimScore_met _ _ ht1 hm1, dimScore_met _ _ ht2 hm2,
      dimScore_met _ _ ht3 hm3, dimScore_met _ _ ht4 hm4, completion_of_num]
    norm_num
  refine ⟨hc, ?_⟩
  rw [computeScores_outcome, hc]
  simp [JSNum.jsEqNum]

/-- C2 amended witness: a record meeting the default targets exactly
grades to 100 and Reward. -/
theorem computeScores_targets_met_reward_witness :
    (0 : ℚ) < defaultSettings.dsaQTarget ∧ defaultSettings.dsaQTarget ≤ eFull.dsaQs ∧
    (computeScores eFull defaultSettings).completion = JSNum.num 100 ∧
    (computeScores eFull defaultSettings).outcome = Outcome.Reward := by
  refine ⟨by decide, by decide, ?_, ?_⟩
  · exact (computeScores_targets_met_reward eFull defaultSettings (by decide) (by decide)
      (by decide) (by decide) (by decide) (by decide) (by decide) (by decide)).1
  · exact (computeScores_targets_met_reward eFull defaultSettings (by decide) (by decide)
      (by decide) (by decide) (by decide) (by decide) (by decide) (by decide)).2

theorem classify_eq (c : JSNum) :
    ((if JSNum.jsEqNum c 100 then Outcome.Reward
      else if JSNum.jsEqNum c 0 then Outcome.Missed
      else Outcome.Fine) = Outcome.Reward ↔ c = JSNum.num 100) ∧
    ((if JSNum.jsEqNum c 100 then Outcome.Reward
      else if JSNum.jsEqNum c 0 then Outcome.Missed
      else Outcome.Fine) = Outcome.Missed ↔ c = JSNum.num 0) ∧
    ((if JSNum.jsEqNum c 100 then Outcome.Reward
      else if JSNum.jsEqNum c 0 then Outcome.Missed
      else Outcome.Fine) = Outcome.Fine ↔
      (c ≠ JSNum.num 100 ∧ c ≠ JSNum.num 0)) := by
  cases c with
  | num q =>
    by_cases h100 : q = 100
    · subst h100; norm_num [JSNum.jsEqNum]; exact ⟨by decide, by decide⟩
    · by_cases h0 : q = 0
      · subst h0; norm_num [JSNum.jsEqNum]; exact ⟨by decide, by decide⟩
      · simp [JSNum.jsEqNum, h100, h0]
  | nan => simp [JSNum.jsEqNum]
  | inf => simp [JSNum.jsEqNum]
  | ninf => simp [JSNum.jsEqNum]

/-- C3: the outcome is exactly Reward when completion is the number 100,
exactly Missed when completion is the number 0, and Fine in every other
case (including non-finite completions, which strict equality rejects);
and a record with all four measurements zero grades to completion 0 and
outcome Missed with no division error. -/
theorem computeScores_outcome_classification (e : Entry) (s : Settings) :
    ((computeScores e s).outcome = Outcome.Reward ↔
      (computeScores e s).completion = JSNum.num 100) ∧
    ((computeScores e s).outcome = Outcome.Missed ↔
      (computeScores e s).completion = JSNum.num 0) ∧
    ((computeScores e s).outcome = Outcome.Fine ↔
      ((computeScores e s).completion ≠ JSNum.num 100 ∧
       (computeScores e s).completion ≠ JSNum.num 0)) ∧
    (e.dsaQs = 0 → e.aptQs = 0 → e.webMin = 0 → e.engMin = 0 →
      (computeScores e s).completion = JSNum.num 0 ∧
      (computeScores e s).outcome = Outcome.Missed) := by
  have hout := computeScores_outcome e s
  have hcl := classify_eq (computeScores e s).completion
  refine ⟨?_, ?_, ?_, fun h1 h2 h3 h4 => ?_⟩
  · rw [hout]; exact hcl.1
  · rw [hout]; exact hcl.2.1
  · rw [hout]; exact hcl.2.2
  · have hc : (computeScores e s).completion = JSNum.num 0 := by
      rw [computeScores_completion, h1, h2, h3, h4, dimScore_zero_actual,
        dimScore_zero_actual, dimScore_zero_actual, dimScore_zero_actual,
        completion_of_num]
      norm_num
    refine ⟨hc, ?_⟩
    rw [hout, hc]
    simp [JSNum.jsEqNum]

/-- C3 witness: the all-zero record under the default configuration. -/
theorem computeScores_outcome_classification_witness :
    eZero.dsaQs = 0 ∧ eZero.aptQs = 0 ∧ eZero.webMin = 0 ∧ eZero.engMin = 0 ∧
    ((computeScores eZero defaultSettings).completion = JSNum.num 0 ∧
     (computeScores eZero defaultSettings).outcome = Outcome.Missed) :=
  ⟨by decide, by decide, by decide, by decide,
    (computeScores_outcome_classification eZero defaultSettings).2.2.2
      (by decide) (by decide) (by decide) (by decide)⟩

/-- C4 counterexample: a negative measurement (allowed by the number
input) produces a per-dimension score of -1, outside [0,1], and a
completion of -25, outside [0,100]. -/
theorem computeScores_score_bounds_cex :
    (computeScores eNeg defaultSettings).dsaScore = JSNum.num (-1) ∧
    (computeScores eNeg defaultSettings).completion = JSNum.num (-25) ∧
    ¬ (∃ q : ℚ, (computeScores eNeg defaultSettings).dsaScore = JSNum.num q ∧
        0 ≤ q ∧ q ≤ 1) := by
  have h1 : (computeScores eNeg defaultSettings).dsaScore = JSNum.num (-1) := by
    rw [computeScores_dsaScore]
    show dimScore (-3) 3 = JSNum.num (-1)
    rw [dimScore_target_ne_zero _ _ (by norm_num)]
    norm_num
  have h2 : (computeScores eNeg defaultSettings).completion = JSNum.num (-25) := by
    rw [computeScores_completion]
    show JSNum.jsRound (JSNum.mul100 (JSNum.div4 (JSNum.jsAdd (JSNum.jsAdd (JSNum.jsAdd
      (dimScore (-3) 3) (dimScore 0 20)) (dimScore 0 90)) (dimScore 0 30)))) =
      JSNum.num (-25)
    rw [show dimScore (-3) 3 = JSNum.num (-1) by
        rw [dimScore_target_ne_zero _ _ (by norm_num)]; norm_num,
      dimScore_zero_actual, dimScore_zero_actual, dimScore_zero_actual,
      completion_of_num]
    have hr : round ((-1 + 0 + 0 + 0 : ℚ) / 4 * 100) = (-25 : ℤ) := by
      rw [show ((-1 + 0 + 0 + 0 : ℚ) / 4 * 100) = ((-25 : ℤ) : ℚ) by norm_num,
        round_intCast]
    rw [hr]
    norm_num
  refine ⟨h1, h2, ?_⟩
  rintro ⟨q, hq, h0, -⟩
  rw [h1] at hq
  injection hq with h
  rw [← h] at h0
  exact absurd h0 (by norm_num)

/-- C4 amended: when the four measurements and the four targets are all
nonnegative, each per-dimension score is a finite number in [0,1] and
completion is the finite number round(average of the four scores * 100),
an integer in [0,100]. -/
theorem computeScores_scores_bounded (e : Entry) (s : Settings)
    (hm1 : 0 ≤ e.dsaQs) (hm2 : 0 ≤ e.aptQs) (hm3 : 0 ≤ e.webMin) (hm4 : 0 ≤ e.engMin)
    (ht1 : 0 ≤ s.dsaQTarget) (ht2 : 0 ≤ s.aptQTarget)
    (ht3 : 0 ≤ s.webMinTarget) (ht4 : 0 ≤ s.engMinTarget) :
    ∃ q1 q2 q3 q4 : ℚ,
      (computeScores e s).dsaScore = JSNum.num q1 ∧ 0 ≤ q1 ∧ q1 ≤ 1 ∧
      (computeScores e s).aptScore = JSNum.num q2 ∧ 0 ≤ q2 ∧ q2 ≤ 1 ∧
      (computeScores e s).webScore = JSNum.num q3 ∧ 0 ≤ q3 ∧ q3 ≤ 1 ∧
      (computeScores e s).engScore = JSNum.num q4 ∧ 0 ≤ q4 ∧ q4 ≤ 1 ∧
      (computeScores e s).completion =
        JSNum.num ((round (((q1 + q2 + q3 + q4) / 4) * 100) : ℤ) : ℚ) ∧
      0 ≤ round (((q1 + q2 + q3 + q4) / 4) * 100) ∧
      round (((q1 + q2 + q3 + q4) / 4) * 100) ≤ 100 := by
  obtain ⟨q1, hd1, hl1, hu1⟩ := dimScore_nonneg_bounds e.dsaQs s.dsaQTarget hm1 ht1
  obtain ⟨q2, hd2, hl2, hu2⟩ := dimScore_nonneg_bounds e.aptQs s.aptQTarget hm2 ht2
  obtain ⟨q3, hd3, hl3, hu3⟩ := dimScore_nonneg_bounds e.webMin s.webMinTarget hm3 ht3
  obtain ⟨q4, hd4, hl4, hu4⟩ := dimScore_nonneg_bounds e.engMin s.engMinTarget hm4 ht4
  refine ⟨q1, q2, q3, q4,
    by rw [computeScores_dsaScore, hd1], hl1, hu1,
    by rw [computeScores_aptScore, hd2], hl2, hu2,
    by rw [computeScores_webScore, hd3], hl3, hu3,
    by rw [computeScores_engScore, hd4], hl4, hu4,
    by rw [computeScores_completion, hd1, hd2, hd3, hd4, completion_of_num],
    ?_, ?_⟩
  · rw [round_eq]
    refine Int.le_floor.mpr ?_
    push_cast
    nlinarith
  · rw [round_eq]
    have hx : ((q1 + q2 + q3 + q4) / 4) * 100 + 1 / 2 ≤ (201 : ℚ) / 2 := by nlinarith
    calc ⌊((q1 + q2 + q3 + q4) / 4) * 100 + 1 / 2⌋ ≤ ⌊(201 : ℚ) / 2⌋ :=
        Int.floor_le_floor hx
    _ = 100 := by rw [Int.floor_eq_iff]; norm_num

/-- C4 amended witness: the bounds instantiated at the record meeting
the default targets exactly. -/
theorem computeScores_scores_bounded_witness :
    (0 : ℚ) ≤ eFull.dsaQs ∧ (0 : ℚ) ≤ defaultSettings.dsaQTarget ∧
    (∃ q1 q2 q3 q4 : ℚ,
      (computeScores eFull defaultSettings).dsaScore = JSNum.num q1 ∧ 0 ≤ q1 ∧ q1 ≤ 1 ∧
      (computeScores eFull defaultSettings).aptScore = JSNum.num q2 ∧ 0 ≤ q2 ∧ q2 ≤ 1 ∧
      (computeScores eFull defaultSettings).webScore = JSNum.num q3 ∧ 0 ≤ q3 ∧ q3 ≤ 1 ∧
      (computeScores eFull defaultSettings).engScore = JSNum.num q4 ∧ 0 ≤ q4 ∧ q4 ≤ 1 ∧
      (computeScores eFull defaultSettings).completion =
        JSNum.num ((round (((q1 + q2 + q3 + q4) / 4) * 100) : ℤ) : ℚ) ∧
      0 ≤ round (((q1 + q2 + q3 + q4) / 4) * 100) ∧
      round (((q1 + q2 + q3 + q4) / 4) * 100) ≤ 100) :=
  ⟨by decide, by decide,
    computeScores_scores_bounded eFull defaultSettings (by decide) (by decide)
      (by decide) (by decide) (by decide) (by decide) (by decide) (by decide)⟩

/-- C5: the fine field equals the configured fine amount if the outcome
is Fine and 0 if the outcome is Reward or Missed, and any finite
completion strictly between 0 and 100 forces the outcome Fine with the
fine amount charged. -/
theorem computeScores_fine_field (e : Entry) (s : Settings) :
    ((computeScores e s).outcome = Outcome.Fine →
      (computeScores e s).fine = s.fineAmount) ∧
    ((computeScores e s).outcome = Outcome.Reward ∨
     (computeScores e s).outcome = Outcome.Missed →
      (computeScores e s).fine = 0) ∧
    (∀ q : ℚ, (computeScores e s).completion = JSNum.num q → 0 < q → q < 100 →
      (computeScores e s).outcome = Outcome.Fine ∧
      (computeScores e s).fine = s.fineAmount) := by
  have hf := computeScores_fine e s
  refine ⟨fun h => by rw [hf, if_pos h], fun h => ?_, fun q hq h0 h100 => ?_⟩
  · rcases h with h | h <;> rw [hf, if_neg (by rw [h]; intro hc; cases hc)]
  · have hout : (computeScores e s).outcome = Outcome.Fine := by
      have hcl := classify_eq (computeScores e s).completion
      rw [computeScores_outcome]
      refine hcl.2.2.mpr ⟨?_, ?_⟩
      · rw [hq]; intro hc; injection hc with hc
        rw [hc] at h100; exact absurd h100 (by norm_num)
      · rw [hq]; intro hc; injection hc with hc
        rw [hc] at h0; exact absurd h0 (by norm_num)
    exact ⟨hout, by rw [hf, if_pos hout]⟩

/-- C5 witness: the record meeting only the DSA target has completion 25
under the default configuration, outcome Fine, and fine 50. -/
theorem computeScores_fine_field_witness :
    (computeScores ePartial defaultSettings).completion = JSNum.num 25 ∧
    ((computeScores ePartial defaultSettings).outcome = Outcome.Fine ∧
     (computeScores ePartial defaultSettings).fine = defaultSettings.fineAmount) := by
  have hc : (computeScores ePartial defaultSettings).completion = JSNum.num 25 := by
    rw [computeScores_completion]
    show JSNum.jsRound (JSNum.mul100 (JSNum.div4 (JSNum.jsAdd (JSNum.jsAdd (JSNum.jsAdd
      (dimScore 3 3) (dimScore 0 20)) (dimScore 0 90)) (dimScore 0 30)))) =
      JSNum.num 25
    rw [dimScore_met 3 3 (by norm_num) (by norm_num),
      dimScore_zero_actual, dimScore_zero_actual, dimScore_zero_actual,
      completion_of_num]
    norm_num
  exact ⟨hc, (computeScores_fine_field ePartial defaultSettings).2.2 25 hc
    (by norm_num) (by norm_num)⟩

/-- C7: the consistency percentage equals
round(100 * count of completion-100 records / record count), and is 0
for an empty history. -/
theorem totals_consistency_formula (l : List Graded) :
    (totals l).consistency =
      if l.length = 0 then 0
      else round ((100 *
        ((l.filter (fun g => decide (g.scores.completion = JSNum.num 100))).length : ℚ)) /
        (l.length : ℚ)) := by
  have hc : (totals l).consistency = consistency l := rfl
  rw [hc, consistency]
  by_cases h : l.length = 0
  · simp [h]
  · rw [if_neg h, if_neg h]
    have hfil : l.filter (fun g => JSNum.jsEqNum g.scores.completion 100) =
        l.filter (fun g => decide (g.scores.completion = JSNum.num 100)) := by
      apply List.filter_congr
      intro g _
      rw [jsEqNum_eq_decide]
    rw [count100, hfil]
    congr 1
    ring

/-- C8: summarizing the empty history yields zero totals, zero outcome
counts and fine total, consistency 0, zero streaks, an empty
completion series, and all-zero aggregate series, for any
configuration (and, being a total function, cannot raise). -/
theorem summarize_nil (s : Settings) :
    summarize [] s =
      { graded := [],
        totals := { dsa := 0, apt := 0, web := 0, eng := 0, rewards := 0,
                    fines := 0, missed := 0, fineAmount := 0, consistency := 0 },
        streaks := { current := 0, best := 0 },
        completionSeries := [],
        timeSplit := [("DSA Minutes", 0), ("Aptitude Minutes", 0),
                      ("Web Dev Minutes", 0), ("English Minutes", 0)],
        rfSeries := [("Reward", 0), ("Fine", 0), ("Missed", 0)] } := by
  have he : enriched [] s = [] := by
    simp [enriched, sortByDate, List.mergeSort_nil]
  simp [summarize, he, totals, consistency, count100, streaks,
    completionSeries, timeSplit, rfSeries]

/-- C9: the scoring and aggregation core is deterministic and, in this
pure embedding, free of mutation by construction: value-equal record,
configuration, and history inputs yield value-equal graded results and
value-equal summaries. -/
theorem core_deterministic (e1 e2 : Entry) (s1 s2 : Settings)
    (l1 l2 : List Entry) (he : e1 = e2) (hs : s1 = s2) (hl : l1 = l2) :
    computeScores e1 s1 = computeScores e2 s2 ∧
    summarize l1 s1 = summarize l2 s2 := by
  subst he; subst hs; subst hl
  exact ⟨rfl, rfl⟩

/-- C9 witness: determinism instantiated at a concrete record, the
default configuration, and a one-record history. -/
theorem core_deterministic_witness :
    computeScores eZero defaultSettings = computeScores eZero defaultSettings ∧
    summarize [eZero] defaultSettings = summarize [eZero] defaultSettings :=
  core_deterministic eZero eZero defaultSettings defaultSettings
    [eZero] [eZero] rfl rfl rfl

/-! Streak correctness development. -/

theorem streaks_concat (l : List Graded) (x : Graded) :
    streaks (l ++ [x]) =
      if is100 x then
        { current := (streaks l).current + 1,
          best := max (streaks l).best ((streaks l).current + 1) }
      else { current := 0, best := (streaks l).best } := by
  by_cases h : is100 x = true <;>
    simp [streaks, List.foldl_append, streaksStep, h]

theorem takeWhile_append_all (p : Graded → Bool) (t u : List Graded)
    (h : ∀ x ∈ t, p x = true) :
    (t ++ u).takeWhile p = t ++ u.takeWhile p := by
  induction t with
  | nil => simp
  | cons a t ih =>
    have ha := h a (List.mem_cons_self a t)
    rw [List.cons_append, List.takeWhile_cons, if_pos ha,
      ih (fun x hx => h x (List.mem_cons_of_mem a hx)), List.cons_append]

theorem streaks_current_eq (l : List Graded) :
    (streaks l).current = (l.reverse.takeWhile is100).length := by
  induction l using List.reverseRecOn with
  | nil => rfl
  | append_singleton l x ih =>
    rw [streaks_concat, List.reverse_append]
    by_cases h : is100 x = true
    · simp [h, List.takeWhile_cons, ih]
    · simp [h, List.takeWhile_cons]

theorem length_le_current_of_suffix (l a r : List Graded) (hl : l = a ++ r)
    (hr : ∀ g ∈ r, is100 g = true) :
    r.length ≤ (streaks l).current := by
  rw [streaks_current_eq, hl, List.reverse_append,
    takeWhile_append_all is100 r.reverse a.reverse
      (fun x hx => hr x (List.mem_reverse.mp hx))]
  rw [List.length_append, List.length_reverse]
  exact Nat.le_add_right _ _

theorem current_suffix_exists (l : List Graded) :
    ∃ a r, l = a ++ r ∧ (∀ g ∈ r, is100 g = true) ∧
      r.length = (streaks l).current := by
  refine ⟨(l.reverse.dropWhile is100).reverse, (l.reverse.takeWhile is100).reverse,
    ?_, ?_, ?_⟩
  · conv_lhs => rw [← List.reverse_reverse l,
      ← List.takeWhile_append_dropWhile is100 l.reverse]
    rw [List.reverse_append]
  · intro g hg
    exact List.mem_takeWhile_imp (List.mem_reverse.mp hg)
  · rw [List.length_reverse, streaks_current_eq]

theorem concat_inj (l m : List Graded) (x y : Graded)
    (h : l ++ [x] = m ++ [y]) : l = m ∧ x = y := by
  obtain ⟨h1, h2⟩ := List.append_inj' h rfl
  refine ⟨h1, ?_⟩
  injection h2

theorem streaks_best_spec (l : List Graded) :
    (∃ a r c, l = a ++ r ++ c ∧ (∀ g ∈ r, is100 g = true) ∧
      r.length = (streaks l).best) ∧
    (∀ a r c, l = a ++ r ++ c → (∀ g ∈ r, is100 g = true) →
      r.length ≤ (streaks l).best) := by
  induction l using List.reverseRecOn with
  | nil =>
    refine ⟨⟨[], [], [], rfl, by simp, rfl⟩, ?_⟩
    intro a r c h hr
    have hlen := congrArg List.length h
    simp [List.length_append] at hlen
    have hb : (streaks ([] : List Graded)).best = 0 := rfl
    omega
  | append_singleton l x ih =>
    obtain ⟨⟨a0, r0, c0, he0, hall0, hlen0⟩, hbd⟩ := ih
    rw [streaks_concat]
    by_cases hx : is100 x = true
    · simp only [hx, if_true]
      constructor
      · rcases le_or_lt ((streaks l).current + 1) (streaks l).best with hge | hlt
        · refine ⟨a0, r0, c0 ++ [x], ?_, hall0, ?_⟩
          · rw [he0]; simp [List.append_assoc]
          · simpa [Nat.max_eq_left hge] using hlen0
        · obtain ⟨a1, r1, hsuf, hall1, hlen1⟩ := current_suffix_exists l
          refine ⟨a1, r1 ++ [x], [], ?_, ?_, ?_⟩
          · rw [List.append_nil, ← List.append_assoc, ← hsuf]
          · intro g hg
            rcases List.mem_append.mp hg with hg | hg
            · exact hall1 g hg
            · rw [List.mem_singleton.mp hg]; exact hx
          · simp only [List.length_append, List.length_singleton,
              Nat.max_eq_right (le_of_lt hlt)]
            omega
      · intro a r c heq hall
        rcases List.eq_nil_or_concat c with rfl | ⟨c1, y, rfl⟩
        · rcases List.eq_nil_or_concat r with rfl | ⟨r1, z, rfl⟩
          · simp
          · rw [List.concat_eq_append, List.append_nil, ← List.append_assoc] at heq
            obtain ⟨hl1, hz⟩ := concat_inj _ _ _ _ heq
            have hr1 : ∀ g ∈ r1, is100 g = true := fun g hg =>
              hall g (by simp [List.concat_eq_append, hg])
            have hcur := length_le_current_of_suffix l (a ++ r1)
              ([] : List Graded) (by rw [hl1, List.append_nil]) (by intro g hg; cases hg)
            have hcur2 := length_le_current_of_suffix l a r1 hl1 hr1
            have hmax := Nat.le_max_right (streaks l).best ((streaks l).current + 1)
            simp only [List.concat_eq_append, List.length_append, List.length_singleton]
            omega
        · rw [List.concat_eq_append, ← List.append_assoc] at heq
          obtain ⟨hl1, -⟩ := concat_inj _ _ _ _ heq
          have := hbd a r c1 hl1 hall
          have hmax := Nat.le_max_left (streaks l).best ((streaks l).current + 1)
          omega
    · simp only [hx, if_false]
      constructor
      · refine ⟨a0, r0, c0 ++ [x], ?_, hall0, ?_⟩
        · rw [he0]; simp [List.append_assoc]
        · simpa using hlen0
      · intro a r c heq hall
        rcases List.eq_nil_or_concat c with rfl | ⟨c1, y, rfl⟩
        · rcases List.eq_nil_or_concat r with rfl | ⟨r1, z, rfl⟩
          · simp
          · rw [List.concat_eq_append, List.append_nil, ← List.append_assoc] at heq
            obtain ⟨-, hz⟩ := concat_inj _ _ _ _ heq
            have : is100 x = true := by
              rw [hz]
              exact hall z (by simp [List.concat_eq_append])
            exact absurd this hx
        · rw [List.concat_eq_append, ← List.append_assoc] at heq
          obtain ⟨hl1, -⟩ := concat_inj _ _ _ _ heq
          have := hbd a r c1 hl1 hall
          simpa using this

/-- A concrete graded record whose completion is 100. -/
def gHit : Graded :=
  { entry := eFull,
    scores := { dsaScore := JSNum.num 1, aptScore := JSNum.num 1,
                webScore := JSNum.num 1, engScore := JSNum.num 1,
                completion := JSNum.num 100, outcome := Outcome.Reward,
                fine := 0, autoNote := "30 min entertainment" } }

/-- A concrete graded record whose completion is 0. -/
def gMiss : Graded :=
  { entry := eZero,
    scores := { dsaScore := JSNum.num 0, aptScore := JSNum.num 0,
                webScore := JSNum.num 0, engScore := JSNum.num 0,
                completion := JSNum.num 0, outcome := Outcome.Missed,
                fine := 0, autoNote := "Fine" } }

/-- C6: over any sequence of graded records, the best streak is the
length of a longest contiguous run of completion-100 records anywhere in
the sequence (some run attains it and every run is bounded by it), and
the current streak is the length of the completion-100 run ending at the
last record (some all-100 suffix attains it and every all-100 suffix is
bounded by it; in particular it is 0 when the last record is not at
100). -/
theorem streaks_correct (l : List Graded) :
    (∃ a r, l = a ++ r ∧ (∀ g ∈ r, is100 g = true) ∧
      r.length = (streaks l).current) ∧
    (∀ a r, l = a ++ r → (∀ g ∈ r, is100 g = true) →
      r.length ≤ (streaks l).current) ∧
    (∃ a r c, l = a ++ r ++ c ∧ (∀ g ∈ r, is100 g = true) ∧
      r.length = (streaks l).best) ∧
    (∀ a r c, l = a ++ r ++ c → (∀ g ∈ r, is100 g = true) →
      r.length ≤ (streaks l).best) :=
  ⟨current_suffix_exists l,
   fun a r h hr => length_le_current_of_suffix l a r h hr,
   (streaks_best_spec l).1,
   (streaks_best_spec l).2⟩

/-- C6 witness: the suffix bound applied to the concrete two-record
history [miss, hit]. -/
theorem streaks_correct_witness :
    ([gMiss, gHit] : List Graded) = [gMiss] ++ [gHit] ∧
    (∀ g ∈ ([gHit] : List Graded), is100 g = true) ∧
    1 ≤ (streaks [gMiss, gHit]).current :=
  ⟨rfl, by decide,
    (streaks_correct [gMiss, gHit]).2.1 [gMiss] [gHit] rfl (by decide)⟩

/-! Entry operations: addOrUpdateEntry and deleteEntry. -/

theorem addOrUpdateEntry_eq_upsert (form : Entry) (l : List Entry) :
    addOrUpdateEntry form l = upsert form l := by
  induction l with
  | nil => rfl
  | cons e rest ih =>
    by_cases h : e.date = form.date
    · have hb : (e.date == form.date) = true := by simp [h]
      simp [addOrUpdateEntry, upsert, List.findIdx?_cons, hb, h]
    · have hb : (e.date == form.date) = false := by simp [h]
      simp only [addOrUpdateEntry, List.findIdx?_cons, hb, Bool.false_eq_true,
        if_false, upsert, h, if_neg]
      rw [@List.findIdx?_succ Entry rest (fun e2 => e2.date == form.date) 0]
      simp only [addOrUpdateEntry] at ih
      cases hfind : List.findIdx? (fun e2 => e2.date == form.date) rest with
      | none =>
        rw [hfind] at ih
        simp only [Option.map_none']
        rw [← ih, List.cons_append]
      | some j =>
        rw [hfind] at ih
        simp only [Option.map_some']
        rw [List.set_cons_succ, ← ih]

theorem upsert_not_mem (form : Entry) (l : List Entry)
    (h : ∀ e ∈ l, e.date ≠ form.date) : upsert form l = l ++ [form] := by
  induction l with
  | nil => rfl
  | cons e rest ih =>
    simp only [upsert, if_neg (h e (List.mem_cons_self e rest))]
    rw [ih (fun e2 he2 => h e2 (List.mem_cons_of_mem e he2)), List.cons_append]

theorem upsert_split (form : Entry) (l : List Entry)
    (h : ∃ e ∈ l, e.date = form.date) :
    ∃ a e0 b, l = a ++ e0 :: b ∧ e0.date = form.date ∧
      (∀ x ∈ a, x.date ≠ form.date) ∧ upsert form l = a ++ form :: b := by
  induction l with
  | nil =>
    obtain ⟨e, he, -⟩ := h
    cases he
  | cons e rest ih =>
    by_cases hd : e.date = form.date
    · refine ⟨[], e, rest, rfl, hd, ?_, ?_⟩
      · intro x hx; cases hx
      · simp [upsert, hd]
    · obtain ⟨e1, he1, hd1⟩ := h
      rcases List.mem_cons.mp he1 with rfl | he1m
      · exact absurd hd1 hd
      · obtain ⟨a, e0, b, hsplit, hd0, ha, hup⟩ := ih ⟨e1, he1m, hd1⟩
        refine ⟨e :: a, e0, b, by rw [hsplit, List.cons_append], hd0, ?_, ?_⟩
        · intro x hx
          rcases List.mem_cons.mp hx with rfl | hxm
          · exact hd
          · exact ha x hxm
        · simp only [upsert, if_neg hd, hup, List.cons_append]

theorem upsert_nodup (form : Entry) (l : List Entry)
    (h : (l.map Entry.date).Nodup) : ((upsert form l).map Entry.date).Nodup := by
  by_cases hmem : ∃ e ∈ l, e.date = form.date
  · obtain ⟨a, e0, b, hsplit, hd0, -, hup⟩ := upsert_split form l hmem
    rw [hup]
    rw [hsplit] at h
    have hmap : (a ++ form :: b).map Entry.date = (a ++ e0 :: b).map Entry.date := by
      simp [List.map_append, hd0]
    rw [hmap]
    exact h
  · push_neg at hmem
    rw [upsert_not_mem form l hmem, List.map_append, List.nodup_append]
    refine ⟨h, List.nodup_singleton _, ?_⟩
    intro d hd1 hd2
    obtain ⟨e, he, hde⟩ := List.mem_map.mp hd1
    have hd3 : d = form.date := by simpa using hd2
    exact hmem e he (hde.trans hd3)

theorem deleteEntry_mem (d : String) (l : List Entry) (x : Entry) :
    x ∈ deleteEntry d l ↔ x ∈ l ∧ x.date ≠ d := by
  rw [deleteEntry, List.mem_filter]
  simp [bne_iff_ne]

theorem deleteEntry_nodup (d : String) (l : List Entry)
    (h : (l.map Entry.date).Nodup) : ((deleteEntry d l).map Entry.date).Nodup :=
  (((List.filter_sublist l).map Entry.date).nodup) h

/-- C10: on a history whose dates are pairwise distinct,
addOrUpdateEntry replaces the first (hence unique) entry carrying the
form's date in place when one exists and appends the form otherwise,
deleteEntry removes exactly the entries carrying the given date, and
both operations leave the dates pairwise distinct. -/
theorem entry_ops_unique_dates (form : Entry) (d : String) (l : List Entry)
    (h : (l.map Entry.date).Nodup) :
    ((∀ e ∈ l, e.date ≠ form.date) → addOrUpdateEntry form l = l ++ [form]) ∧
    ((∃ e ∈ l, e.date = form.date) →
      ∃ a e0 b, l = a ++ e0 :: b ∧ e0.date = form.date ∧
        (∀ x ∈ a, x.date ≠ form.date) ∧
        addOrUpdateEntry form l = a ++ form :: b) ∧
    ((addOrUpdateEntry form l).map Entry.date).Nodup ∧
    (∀ x, x ∈ deleteEntry d l ↔ x ∈ l ∧ x.date ≠ d) ∧
    ((deleteEntry d l).map Entry.date).Nodup := by
  rw [addOrUpdateEntry_eq_upsert]
  exact ⟨fun hne => upsert_not_mem form l hne,
    fun hmem => upsert_split form l hmem,
    upsert_nodup form l h,
    fun x => deleteEntry_mem d l x,
    deleteEntry_nodup d l h⟩

/-- A form entry used by the C10 witness. -/
def wForm : Entry :=
  { date := "2025-02-02", dsaQs := 1, dsaMin := 2, aptQs := 3, aptMin := 4,
    webMin := 5, engMin := 6, note := some "x" }

/-- C10 witness: appending a form whose date is new to a one-entry
history with distinct dates. -/
theorem entry_ops_unique_dates_witness :
    (([eZero] : List Entry).map Entry.date).Nodup ∧
    (∀ e ∈ ([eZero] : List Entry), e.date ≠ wForm.date) ∧
    addOrUpdateEntry wForm [eZero] = [eZero] ++ [wForm] :=
  ⟨by decide, by decide,
    (entry_ops_unique_dates wForm "2025-01-01" [eZero] (by decide)).1 (by decide)⟩
